import Mathlib

/-!
# Verification of the virtual-alexa test harness core

Shallow embedding, in Lean 4, of the algorithmic core of the virtual-alexa
skill-testing harness: the audio-player state machine and its directive
handling (`VirtualAlexa.handleAudioDirective`, `VirtualAlexa.send`), the
dialog manager's slot accumulation (`DialogManager.updateSlot`), slot-type
resolution (`SlotMatch.fromType`, `SlotType.matchAll`), entity resolution on
outgoing requests (`VirtualAlexa.slot`), the utterance matching pipeline
(`InteractionModel.utterance`, `checkSlots`, scoring) and the `utter`
entry-point dispatch.

JavaScript strings are modelled as Lean `String`; the case-insensitive
comparisons performed with `toLowerCase()` are modelled by mapping
`Char.toLower` over the characters.  Handler round-trips nested inside
directive processing (the `audioPlayerRequest` calls) are modelled as emitted
trace events carrying the data the nested request would read; the handler's
responses to those playback notifications are modelled as directive-free.
-/

namespace VirtualAlexa

/-- Lower-case a string character by character: the model of JavaScript
`toLowerCase()` and of the `i` regular-expression flag. -/
def lowerStr (s : String) : String :=
  ⟨s.data.map Char.toLower⟩

/-- JavaScript `String.prototype.startsWith`, computed on the character
lists. -/
def jsStartsWith (s pre : String) : Bool :=
  pre.data.isPrefixOf s.data

/-- JavaScript `String.prototype.endsWith`, computed on the character
lists. -/
def jsEndsWith (s suf : String) : Bool :=
  suf.data.isSuffixOf s.data

/-- Whitespace for the purposes of JavaScript `String.prototype.trim`. -/
def jsWhitespace (c : Char) : Bool :=
  c = ' ' || c = '\t' || c = '\n' || c = '\r'

/-- JavaScript `String.prototype.trim`: strip leading and trailing
whitespace. -/
def jsTrim (s : String) : String :=
  ⟨((s.data.dropWhile jsWhitespace).reverse.dropWhile jsWhitespace).reverse⟩

/-! ## Audio player state machine

From `src/core/VirtualAlexa.ts`: classes `AudioPlayer`, `AudioItem`, enum
`AudioPlayerActivity`, and the directive/suspend/resume logic of
`VirtualAlexa.handleAudioDirective` and `VirtualAlexa.send`. -/

/-- `AudioPlayerActivity` from `VirtualAlexa.ts` (the commented-out members
of the TypeScript enum are never used and are omitted). -/
inductive AudioPlayerActivity where
  | IDLE
  | PLAYING
  | STOPPED
deriving DecidableEq, Repr

/-- `AudioItem` from `VirtualAlexa.ts`: one stream entry of the queue. -/
structure AudioItem where
  url : String
  token : String
  expectedPreviousToken : String
  offsetInMilliseconds : Nat
deriving DecidableEq, Repr

/-- The mutable fields of class `AudioPlayer`: `_queue`, `_activity`,
`_suspended`. -/
structure AudioPlayerState where
  queue : List AudioItem
  activity : AudioPlayerActivity
  suspended : Bool
deriving DecidableEq, Repr

/-- `AudioPlayer.playingItem()`: the head of the queue (`this._queue[0]`,
which is `undefined` on an empty queue, hence an `Option`). -/
def playingItem (st : AudioPlayerState) : Option AudioItem :=
  st.queue.head?

/-- A fresh `AudioPlayer`: empty queue, `IDLE`, not suspended. -/
def initialAudioState : AudioPlayerState :=
  { queue := [], activity := .IDLE, suspended := false }

/-- `playBehavior` values of an `AudioPlayer.Play` directive. -/
inductive PlayBehavior where
  | ENQUEUE
  | REPLACE_ALL
  | REPLACE_ENQUEUED
deriving DecidableEq, Repr

/-- The audio directives interpreted by `handleAudioDirective`:
`AudioPlayer.Play` (with its `playBehavior` and `audioItem.stream`) and
`AudioPlayer.Stop`. -/
inductive AudioDirective where
  | play (behavior : PlayBehavior) (stream : AudioItem)
  | stop
deriving DecidableEq, Repr

/-- Observable actions of the harness while folding an audio directive into
the audio-player state.  A `playbackStopped`/`playbackStarted` event is one
`audioPlayerRequest` round-trip to the handler; it carries the
`playingItem()` the nested request reads its token/offset from at the moment
it is issued.  `sessionEndedError` is the `endSession(ERROR, …)` round-trip
carrying the error payload's `type` and `message`. -/
inductive AudioEvent where
  | playbackStopped (item : Option AudioItem)
  | playbackStarted (item : Option AudioItem)
  | sessionEndedError (errorType : String) (message : String)
deriving DecidableEq, Repr

/-- `VirtualAlexa.handleAudioDirective`, returning the updated audio-player
state together with the trace of handler round-trips it performs, in order.
For `AudioPlayer.Play` the first phase applies the `playBehavior`
(`ENQUEUE` appends; `REPLACE_ALL` first stops current playback with a
stopped round-trip, then replaces the queue with the single new stream;
`REPLACE_ENQUEUED` replaces the queue); the second phase, when not playing
and the queue is non-empty, validates the head's URL (missing URL or a URL
starting with "http:" ends the session with an `INVALID_RESPONSE` error
payload) and otherwise transitions to `PLAYING` with a started round-trip.
`AudioPlayer.Stop` clears the suspended flag if set, else stops current
playback if any. -/
def handleAudioDirective (st : AudioPlayerState) (d : AudioDirective) :
    AudioPlayerState × List AudioEvent :=
  match d with
  | .play behavior stream =>
    let phase1 : AudioPlayerState × List AudioEvent :=
      match behavior with
      | .ENQUEUE => ({ st with queue := st.queue ++ [stream] }, [])
      | .REPLACE_ALL =>
        if st.activity = .PLAYING then
          ({ st with activity := .STOPPED, queue := [stream] },
           [.playbackStopped (playingItem st)])
        else
          ({ st with queue := [stream] }, [])
      | .REPLACE_ENQUEUED => ({ st with queue := [stream] }, [])
    let st1 := phase1.1
    if st1.activity ≠ .PLAYING ∧ st1.queue ≠ [] then
      match st1.queue.head? with
      | some head =>
        if head.url = "" then
          (st1, phase1.2 ++ [.sessionEndedError "INVALID_RESPONSE"
            "The URL specified in the Play directive must be defined and a valid HTTPS url"])
        else if jsStartsWith head.url "http:" then
          (st1, phase1.2 ++ [.sessionEndedError "INVALID_RESPONSE"
            "The URL specified in the Play directive must be HTTPS"])
        else
          ({ st1 with activity := .PLAYING },
           phase1.2 ++ [.playbackStarted st1.queue.head?])
      | none => (st1, phase1.2)
    else
      (st1, phase1.2)
  | .stop =>
    if st.suspended then
      ({ st with suspended := false }, [])
    else if (playingItem st).isSome then
      ({ st with activity := .STOPPED }, [.playbackStopped (playingItem st)])
    else
      (st, [])

/-- The suspend step of `VirtualAlexa.send` performed before dispatching an
intent-bearing request: if the player is `PLAYING`, mark it suspended, stop
it, and round-trip a `PlaybackStopped` request to the handler. -/
def sendSuspend (st : AudioPlayerState) : AudioPlayerState × List AudioEvent :=
  if st.activity = .PLAYING then
    ({ st with suspended := true, activity := .STOPPED },
     [.playbackStopped (playingItem st)])
  else
    (st, [])

/-- The resume step of `VirtualAlexa.send` performed after the handler's
directives are processed: if suspended, clear the flag and, when not already
`PLAYING`, transition to `PLAYING` with a `PlaybackStarted` round-trip. -/
def sendResume (st : AudioPlayerState) : AudioPlayerState × List AudioEvent :=
  if st.suspended then
    if st.activity ≠ .PLAYING then
      ({ st with suspended := false, activity := .PLAYING },
       [.playbackStarted (playingItem st)])
    else
      ({ st with suspended := false }, [])
  else
    (st, [])

/-- One mutation of the audio-player state by the harness: folding one audio
directive, the pre-dispatch suspend, or the post-dispatch resume.  These are
the only places `VirtualAlexa` writes `_queue`, `_activity` or
`_suspended`. -/
inductive AudioStep : AudioPlayerState → AudioPlayerState → Prop where
  | directive (st : AudioPlayerState) (d : AudioDirective) :
      AudioStep st (handleAudioDirective st d).1
  | suspend (st : AudioPlayerState) : AudioStep st (sendSuspend st).1
  | resume (st : AudioPlayerState) : AudioStep st (sendResume st).1

/-- Audio-player states reachable from the fresh player by harness steps. -/
inductive AudioReachable : AudioPlayerState → Prop where
  | init : AudioReachable initialAudioState
  | step {st st' : AudioPlayerState} :
      AudioReachable st → AudioStep st st' → AudioReachable st'

/-- The combined audio-player invariant maintained by every harness step:
a non-`IDLE` player has a non-empty queue, and a suspended player is not
`IDLE`. -/
def AudioInv (st : AudioPlayerState) : Prop :=
  (st.activity ≠ .IDLE → st.queue ≠ []) ∧ (st.suspended = true → st.activity ≠ .IDLE)

theorem audioInv_initial : AudioInv initialAudioState := by
  constructor <;> simp [initialAudioState]

theorem handleAudioDirective_play_queue_ne_nil (st : AudioPlayerState)
    (b : PlayBehavior) (stream : AudioItem) :
    (handleAudioDirective st (.play b stream)).1.queue ≠ [] := by
  rcases b <;> simp only [handleAudioDirective] <;> (repeat' split) <;> simp_all

theorem handleAudioDirective_stop_queue (st : AudioPlayerState) :
    (handleAudioDirective st .stop).1.queue = st.queue := by
  simp only [handleAudioDirective]
  (repeat' split) <;> simp_all

theorem handleAudioDirective_activity_IDLE (st : AudioPlayerState) (d : AudioDirective)
    (h : (handleAudioDirective st d).1.activity = .IDLE) : st.activity = .IDLE := by
  rcases d with ⟨b, stream⟩ | _
  · rcases b <;> simp only [handleAudioDirective] at h <;> (repeat' split at h) <;> simp_all
  · simp only [handleAudioDirective] at h
    (repeat' split at h) <;> simp_all

theorem handleAudioDirective_suspended (st : AudioPlayerState) (d : AudioDirective)
    (h : (handleAudioDirective st d).1.suspended = true) : st.suspended = true := by
  rcases d with ⟨b, stream⟩ | _
  · rcases b <;> simp only [handleAudioDirective] at h <;> (repeat' split at h) <;> simp_all
  · simp only [handleAudioDirective] at h
    (repeat' split at h) <;> simp_all

theorem audioInv_handleAudioDirective (st : AudioPlayerState) (d : AudioDirective)
    (h : AudioInv st) : AudioInv (handleAudioDirective st d).1 := by
  obtain ⟨h1, h2⟩ := h
  rcases d with ⟨b, stream⟩ | _
  · refine ⟨fun _ => handleAudioDirective_play_queue_ne_nil st b stream, fun hs ha => ?_⟩
    exact h2 (handleAudioDirective_suspended st _ hs) (handleAudioDirective_activity_IDLE st _ ha)
  · refine ⟨fun ha => ?_, fun hs ha => ?_⟩
    · simp only [handleAudioDirective] at ha ⊢
      (repeat' split at ha) <;> simp_all [playingItem, List.head?_isSome]
    · exact h2 (handleAudioDirective_suspended st _ hs) (handleAudioDirective_activity_IDLE st _ ha)

theorem audioInv_sendSuspend (st : AudioPlayerState) (h : AudioInv st) :
    AudioInv (sendSuspend st).1 := by
  obtain ⟨h1, h2⟩ := h
  simp only [sendSuspend]
  split
  · rename_i hp
    refine ⟨fun _ => ?_, fun _ => by simp⟩
    simpa using h1 (by simp [hp])
  · exact ⟨h1, h2⟩

theorem audioInv_sendResume (st : AudioPlayerState) (h : AudioInv st) :
    AudioInv (sendResume st).1 := by
  obtain ⟨h1, h2⟩ := h
  simp only [sendResume]
  split
  · rename_i hs
    split
    · refine ⟨fun _ => ?_, fun hc => by simp⟩
      simpa using h1 (h2 hs)
    · refine ⟨fun ha => ?_, fun hc => ?_⟩
      · simpa using h1 (by simpa using ha)
      · simp at hc
  · exact ⟨h1, h2⟩

theorem audioInv_of_reachable {st : AudioPlayerState} (h : AudioReachable st) :
    AudioInv st := by
  induction h with
  | init => exact audioInv_initial
  | step _ hstep ih =>
    cases hstep with
    | directive d => exact audioInv_handleAudioDirective _ d ih
    | suspend => exact audioInv_sendSuspend _ ih
    | resume => exact audioInv_sendResume _ ih

/-- C9: in every reachable audio-player state whose activity is not `IDLE`
(`PLAYING` or `STOPPED`), the queue is non-empty, so `playingItem()` (the
queue head, whose `token` and `offsetInMilliseconds` the request builder
reads for the `context.AudioPlayer` block of a non-`IDLE` outgoing request)
is always defined. -/
theorem audioPlayer_nonIdle_playingItem_defined {st : AudioPlayerState}
    (hreach : AudioReachable st) (hact : st.activity ≠ .IDLE) :
    ∃ item : AudioItem, playingItem st = some item := by
  have hinv := audioInv_of_reachable hreach
  have hq : st.queue ≠ [] := hinv.1 hact
  rcases hqe : st.queue with _ | ⟨a, l⟩
  · exact absurd hqe hq
  · exact ⟨a, by simp [playingItem, hqe]⟩

/-- The audio-player part of `VirtualAlexa.send` for an intent-bearing
request on an audio-supported device: the pre-dispatch suspend
(`VirtualAlexa.ts` lines 282-288), then — once the handler has returned —
folding each directive of the response in order (lines 307-310), then the
post-dispatch resume (lines 324-332).  The trace concatenates the handler
round-trips of the three stages in the order they are performed; session
and dialog bookkeeping, which do not touch the audio player, are omitted,
and the handler's responses to playback notifications are modelled as
directive-free. -/
def intendFlow (st : AudioPlayerState) (directives : List AudioDirective) :
    AudioPlayerState × List AudioEvent :=
  let s1 := sendSuspend st
  let s2 := directives.foldl
    (fun (acc : AudioPlayerState × List AudioEvent) d =>
      let r := handleAudioDirective acc.1 d
      (r.1, acc.2 ++ r.2))
    (s1.1, s1.2)
  let s3 := sendResume s2.1
  (s3.1, s2.2 ++ s3.2)

/-- C2 counterexample: an intent-bearing request issued while the player is
`PLAYING` whose response carries a single `Play ENQUEUE` directive.  The
claim says the harness performs neither a `PlaybackStopped` nor a
`PlaybackStarted` round-trip; in fact the pre-dispatch suspend performs a
`PlaybackStopped` round-trip and the post-enqueue restart performs a
`PlaybackStarted` round-trip (both for the unchanged current head), so the
trace is not empty. -/
theorem intent_enqueue_while_playing_counterexample :
    intendFlow ⟨[⟨"https://example.com/a.mp3", "tok-a", "", 10⟩], .PLAYING, false⟩
        [.play .ENQUEUE ⟨"https://example.com/b.mp3", "tok-b", "", 0⟩] =
      (⟨[⟨"https://example.com/a.mp3", "tok-a", "", 10⟩,
         ⟨"https://example.com/b.mp3", "tok-b", "", 0⟩], .PLAYING, false⟩,
       [.playbackStopped (some ⟨"https://example.com/a.mp3", "tok-a", "", 10⟩),
        .playbackStarted (some ⟨"https://example.com/a.mp3", "tok-a", "", 10⟩)]) ∧
    (intendFlow ⟨[⟨"https://example.com/a.mp3", "tok-a", "", 10⟩], .PLAYING, false⟩
        [.play .ENQUEUE ⟨"https://example.com/b.mp3", "tok-b", "", 0⟩]).2 ≠ [] := by
  constructor
  · decide
  · decide

/-- C2 amended: for an intent-bearing request issued while the player is
`PLAYING` (current head and new stream with well-formed URLs), the
pre-dispatch suspend performs exactly one `PlaybackStopped` round-trip —
reading the old head — before the handler runs.  When the response carries
`Play REPLACE_ALL`, the queue is then replaced with the single new item and
exactly one `PlaybackStarted` round-trip for the new item follows: one stop
before the replacement, one start after, as claimed.  When the response
instead carries `Play ENQUEUE`, the stream is appended behind the unchanged
current head, but the round-trip count is not zero: the same
`PlaybackStopped` from the suspend and one `PlaybackStarted` restarting the
same current item bracket the handler call. -/
theorem intent_play_replaceAll_vs_enqueue (st : AudioPlayerState)
    (a stream : AudioItem)
    (hplaying : st.activity = .PLAYING)
    (hhead : playingItem st = some a)
    (haurl : a.url ≠ "") (hahttp : jsStartsWith a.url "http:" = false)
    (hurl : stream.url ≠ "") (hhttps : jsStartsWith stream.url "http:" = false) :
    intendFlow st [.play .REPLACE_ALL stream] =
      ({ queue := [stream], activity := .PLAYING, suspended := false },
       [.playbackStopped (some a), .playbackStarted (some stream)]) ∧
    intendFlow st [.play .ENQUEUE stream] =
      ({ queue := st.queue ++ [stream], activity := .PLAYING, suspended := false },
       [.playbackStopped (some a), .playbackStarted (some a)]) := by
  obtain ⟨q', hq⟩ : ∃ q', st.queue = a :: q' := by
    rcases hqe : st.queue with _ | ⟨x, q'⟩
    · rw [playingItem, hqe] at hhead
      cases hhead
    · rw [playingItem, hqe] at hhead
      simp only [List.head?_cons, Option.some.injEq] at hhead
      exact ⟨q', by rw [hhead]⟩
  constructor
  · simp [intendFlow, sendSuspend, sendResume, handleAudioDirective,
      hplaying, hq, hurl, hhttps, playingItem]
  · simp [intendFlow, sendSuspend, sendResume, handleAudioDirective,
      hplaying, hq, haurl, hahttp, playingItem]

/-- Witness for C2's amended statement at a concrete playing state. -/
theorem intent_play_replaceAll_vs_enqueue_witness :
    intendFlow ⟨[⟨"https://example.com/a.mp3", "tok-a", "", 10⟩], .PLAYING, false⟩
        [.play .REPLACE_ALL ⟨"https://example.com/b.mp3", "tok-b", "", 0⟩] =
      (⟨[⟨"https://example.com/b.mp3", "tok-b", "", 0⟩], .PLAYING, false⟩,
       [.playbackStopped (some ⟨"https://example.com/a.mp3", "tok-a", "", 10⟩),
        .playbackStarted (some ⟨"https://example.com/b.mp3", "tok-b", "", 0⟩)]) ∧
    intendFlow ⟨[⟨"https://example.com/a.mp3", "tok-a", "", 10⟩], .PLAYING, false⟩
        [.play .ENQUEUE ⟨"https://example.com/b.mp3", "tok-b", "", 0⟩] =
      (⟨[⟨"https://example.com/a.mp3", "tok-a", "", 10⟩,
         ⟨"https://example.com/b.mp3", "tok-b", "", 0⟩], .PLAYING, false⟩,
       [.playbackStopped (some ⟨"https://example.com/a.mp3", "tok-a", "", 10⟩),
        .playbackStarted (some ⟨"https://example.com/a.mp3", "tok-a", "", 10⟩)]) :=
  intent_play_replaceAll_vs_enqueue
    ⟨[⟨"https://example.com/a.mp3", "tok-a", "", 10⟩], .PLAYING, false⟩
    ⟨"https://example.com/a.mp3", "tok-a", "", 10⟩
    ⟨"https://example.com/b.mp3", "tok-b", "", 0⟩
    rfl rfl (by decide) (by decide) (by decide) (by decide)

/-- C7 (the part the code implements): when the head item to be started has
a missing URL or a URL with the explicit `http:` scheme, the harness leaves
the player state unchanged — playback is not started — and instead performs
a session-ending round-trip whose error payload has type `INVALID_RESPONSE`
and a message about the URL requirement. -/
theorem play_invalid_url_ends_session (st : AudioPlayerState) (stream : AudioItem)
    (hnotPlaying : st.activity ≠ .PLAYING) :
    (stream.url = "" →
      handleAudioDirective st (.play .REPLACE_ALL stream) =
        ({ st with queue := [stream] },
         [.sessionEndedError "INVALID_RESPONSE"
           "The URL specified in the Play directive must be defined and a valid HTTPS url"])) ∧
    (jsStartsWith stream.url "http:" = true →
      handleAudioDirective st (.play .REPLACE_ALL stream) =
        ({ st with queue := [stream] },
         [.sessionEndedError "INVALID_RESPONSE"
           "The URL specified in the Play directive must be HTTPS"])) := by
  constructor
  · intro hurl
    simp [handleAudioDirective, hnotPlaying, hurl]
  · intro hhttp
    have hurl : stream.url ≠ "" := by
      intro hempty
      rw [hempty] at hhttp
      simp [jsStartsWith] at hhttp
    simp [handleAudioDirective, hnotPlaying, hurl, hhttp]

/-- Witness for the implemented part of C7: a missing URL and an
`http:`-scheme URL each end the session with `INVALID_RESPONSE`. -/
theorem play_invalid_url_ends_session_witness :
    handleAudioDirective ⟨[], .IDLE, false⟩ (.play .REPLACE_ALL ⟨"", "t", "", 0⟩) =
      (⟨[⟨"", "t", "", 0⟩], .IDLE, false⟩,
       [.sessionEndedError "INVALID_RESPONSE"
         "The URL specified in the Play directive must be defined and a valid HTTPS url"]) ∧
    handleAudioDirective ⟨[], .IDLE, false⟩
        (.play .REPLACE_ALL ⟨"http://example.com/a.mp3", "t", "", 0⟩) =
      (⟨[⟨"http://example.com/a.mp3", "t", "", 0⟩], .IDLE, false⟩,
       [.sessionEndedError "INVALID_RESPONSE"
         "The URL specified in the Play directive must be HTTPS"]) :=
  ⟨(play_invalid_url_ends_session ⟨[], .IDLE, false⟩ ⟨"", "t", "", 0⟩ (by decide)).1 rfl,
   (play_invalid_url_ends_session ⟨[], .IDLE, false⟩ ⟨"http://example.com/a.mp3", "t", "", 0⟩
     (by decide)).2 (by decide)⟩

/-- C7, divergence from the claim: a URL that is not HTTPS but does not
start with the literal characters `http:` — here the `ftp:` scheme — is
*not* rejected: the harness starts playback and performs a
`PlaybackStarted` round-trip, with no `INVALID_RESPONSE` error, although
the code's own error message states the URL "must be defined and a valid
HTTPS url". -/
theorem play_ftp_url_starts_playback :
    handleAudioDirective ⟨[], .IDLE, false⟩
        (.play .REPLACE_ALL ⟨"ftp://example.com/a.mp3", "t", "", 0⟩) =
      (⟨[⟨"ftp://example.com/a.mp3", "t", "", 0⟩], .PLAYING, false⟩,
       [.playbackStarted (some ⟨"ftp://example.com/a.mp3", "t", "", 0⟩)]) := by
  decide

/-- A concrete valid stream used to instantiate the audio theorems. -/
def sampleStream : AudioItem :=
  { url := "https://example.com/podcast.mp3", token := "token-1",
    expectedPreviousToken := "", offsetInMilliseconds := 0 }

/-- Witness for C9: after a `Play REPLACE_ALL` directive on the fresh
player, the activity is non-`IDLE` and the theorem yields a playing item. -/
theorem audioPlayer_nonIdle_playingItem_defined_witness :
    (handleAudioDirective initialAudioState (.play .REPLACE_ALL sampleStream)).1.activity ≠ .IDLE ∧
    ∃ item : AudioItem,
      playingItem (handleAudioDirective initialAudioState (.play .REPLACE_ALL sampleStream)).1 =
        some item :=
  ⟨by decide,
   audioPlayer_nonIdle_playingItem_defined
     (AudioReachable.step AudioReachable.init
       (AudioStep.directive initialAudioState (.play .REPLACE_ALL sampleStream)))
     (by decide)⟩

/-! ## Dialog manager slot accumulation

From `DialogManager` (`src/core/SkillContext.ts` / `dialog/DialogManager.ts`):
the `_slots` map and `updateSlot`. -/

/-- `ConfirmationStatus` from `SkillContext.ts`. -/
inductive ConfirmationStatus where
  | CONFIRMED
  | DENIED
  | NONE
deriving DecidableEq, Repr

/-- The per-slot state stored in `DialogManager._slots`, with the fields
`updateSlot` reads and writes (`value`, `resolutions`,
`confirmationStatus`); `value` and `resolutions` may be absent
(`undefined`). -/
structure DialogSlotState where
  value : Option String
  resolutions : Option String
  confirmationStatus : ConfirmationStatus
deriving DecidableEq, Repr

/-- JavaScript truthiness of an optional string field: `undefined` and the
empty string are falsy. -/
def truthyStr : Option String → Bool
  | none => false
  | some s => !(s == "")

/-- Lookup in the `_slots` object, modelled as an association list keyed by
slot name. -/
def lookupSlot (slots : List (String × DialogSlotState)) (name : String) :
    Option DialogSlotState :=
  (slots.find? (fun e => e.1 == name)).map (·.2)

/-- `DialogManager.updateSlot`: a slot not yet present is stored as given;
an existing slot has its `value`, `resolutions` and `confirmationStatus`
overwritten only when the new observation's `value` is truthy, and is left
untouched otherwise. -/
def updateSlot (slots : List (String × DialogSlotState)) (slotName : String)
    (newSlot : DialogSlotState) : List (String × DialogSlotState) :=
  match lookupSlot slots slotName with
  | none => slots ++ [(slotName, newSlot)]
  | some existingSlot =>
    if truthyStr newSlot.value then
      slots.map (fun e =>
        if e.1 == slotName then
          (e.1, { existingSlot with
                    value := newSlot.value,
                    resolutions := newSlot.resolutions,
                    confirmationStatus := newSlot.confirmationStatus })
        else e)
    else
      slots

/-- C3: dialog slot accumulation is monotonic.  For a slot already stored
with a (truthy) value and confirmation status `CONFIRMED`, merging a new
observation that carries no value leaves the whole slot map — in particular
the stored value, resolutions and `CONFIRMED` status — unchanged; and the
stored slot's fields can change only when the new observation carries a
(truthy) value. -/
theorem dialog_slot_accumulation_monotonic
    (slots : List (String × DialogSlotState)) (name : String)
    (ex newSlot : DialogSlotState)
    (hex : lookupSlot slots name = some ex)
    (_hval : truthyStr ex.value = true)
    (_hconf : ex.confirmationStatus = .CONFIRMED) :
    (truthyStr newSlot.value = false → updateSlot slots name newSlot = slots) ∧
    (∀ ex', lookupSlot (updateSlot slots name newSlot) name = some ex' →
      ex' ≠ ex → truthyStr newSlot.value = true) := by
  have hid : truthyStr newSlot.value = false → updateSlot slots name newSlot = slots := by
    intro hfalse
    simp only [updateSlot, hex, hfalse]
    simp
  refine ⟨hid, fun ex' hlook hne => ?_⟩
  by_cases htruthy : truthyStr newSlot.value = true
  · exact htruthy
  · rw [hid (by simpa using htruthy), hex] at hlook
    exact absurd (Option.some_injective _ hlook).symm hne

/-- Witness for C3: a `CONFIRMED` slot with value "Lima" survives a merge
with a value-less placeholder observation untouched. -/
theorem dialog_slot_accumulation_monotonic_witness :
    updateSlot [("city", ⟨some "Lima", none, .CONFIRMED⟩)] "city" ⟨none, none, .NONE⟩ =
      [("city", ⟨some "Lima", none, .CONFIRMED⟩)] :=
  (dialog_slot_accumulation_monotonic
      [("city", ⟨some "Lima", none, .CONFIRMED⟩)] "city"
      ⟨some "Lima", none, .CONFIRMED⟩ ⟨none, none, .NONE⟩
      (by decide) (by decide) rfl).1 (by decide)

/-! ## Slot types and slot-type resolution

From `virtualCore/SlotTypes.ts`: classes `SlotType`, `SlotMatch` (with
`SlotMatch.fromType`) and the `ISlotValue` shape.  The optional regex of a
builtin slot type (only `AMAZON.NUMBER` declares one, `"^[0-9]*$"`) is
modelled as an optional predicate on strings. -/

/-- The `name` member of an `ISlotValue`: canonical value plus synonyms
(absent synonyms are modelled as the empty list). -/
structure SlotValueName where
  value : String
  synonyms : List String
deriving DecidableEq, Repr

/-- `ISlotValue` from `SlotTypes.ts`. -/
structure ISlotValue where
  id : Option String
  builtin : Bool
  name : SlotValueName
deriving DecidableEq, Repr

/-- `SlotType` from `SlotTypes.ts`; `regex`, when declared, is the predicate
"the whole string matches the regex". -/
structure SlotType where
  name : String
  values : List ISlotValue
  regex : Option (String → Bool)

/-- `SlotMatch` from `SlotTypes.ts`; the source's boolean field `matches`
is rendered `isMatch` (`matches` is reserved in Lean). -/
structure SlotMatch where
  isMatch : Bool
  value : Option String
  enumeratedValue : Option ISlotValue
  slotValueSynonym : Option String
  untyped : Bool
deriving DecidableEq, Repr

/-- `SlotType.isEnumerated`: `AMAZON.NUMBER` and every non-builtin
(non-`AMAZON`-prefixed) type count as fully enumerated. -/
def SlotType.isEnumerated (st : SlotType) : Bool :=
  st.name == "AMAZON.NUMBER" || !(jsStartsWith st.name "AMAZON")

/-- `SlotType.matchAll`: compare the trimmed value case-insensitively
against each slot value's canonical form and, failing that, against each of
its synonyms; every hit contributes one `SlotMatch`. -/
def SlotType.matchAll (st : SlotType) (value : String) : List SlotMatch :=
  let v := jsTrim value
  st.values.flatMap (fun slotValue =>
    if lowerStr slotValue.name.value = lowerStr v then
      [⟨true, some v, some slotValue, none, false⟩]
    else
      (slotValue.name.synonyms.filter (fun syn => lowerStr syn = lowerStr v)).map
        (fun syn => ⟨true, some v, some slotValue, some syn, false⟩))

/-- Truthiness of `slotType.regex && slotValue.trim().match(slotType.regex)`
for an already-trimmed value. -/
def regexMatches (st : SlotType) (v : String) : Bool :=
  match st.regex with
  | some r => r v
  | none => false

/-- `SlotMatch.fromType`: no registered type is an untyped match; a declared
regex matching the trimmed value succeeds immediately; otherwise the first
`matchAll` hit is returned; otherwise a builtin that is not fully enumerated
matches free-form; otherwise the match fails. -/
def SlotMatch.fromType (slotValue : String) (slotType : Option SlotType) : SlotMatch :=
  match slotType with
  | none => ⟨true, some slotValue, none, none, true⟩
  | some st =>
    if regexMatches st (jsTrim slotValue) then
      ⟨true, some (jsTrim slotValue), none, none, false⟩
    else
      match st.matchAll slotValue with
      | m :: _ => m
      | [] =>
        if jsStartsWith st.name "AMAZON" && !st.isEnumerated then
          ⟨true, some slotValue, none, none, false⟩
        else
          ⟨false, none, none, none, false⟩

/-! ## Checking the slots of a matched sample phrase

From `InteractionModel.checkSlots` and the slot-boundary guard of
`InteractionModel.utterance` (`model/InteractionModel.ts`): a matched
candidate is dropped when a captured slot value that is not the entire
matched string and is non-blank touches the literal text with no whitespace
boundary; the surviving captured values are resolved against their slot
types, any failure dropping the candidate. -/

/-- The slot-boundary test of `InteractionModel.utterance` for one captured
value `v` within the full match `input`: a violation when `v` is not the
whole match, is non-blank after trimming, and has neither a leading nor a
trailing space. -/
def slotBoundaryViolation (input v : String) : Bool :=
  !(input == v) && !((jsTrim v) == "") && !(jsStartsWith v " ") && !(jsEndsWith v " ")

/-- The slot-type checking loop of `checkSlots`: resolve each captured
value against the slot type looked up for its slot name (already zipped
here), failing the whole candidate on the first non-match. -/
def checkSlotsTypes : List (String × Option SlotType) → Option (List SlotMatch)
  | [] => some []
  | (v, t) :: rest =>
    if (SlotMatch.fromType v t).isMatch then
      (checkSlotsTypes rest).map (fun ms => SlotMatch.fromType v t :: ms)
    else
      none

/-- `checkSlots`: the boundary guard over all captured values, then the
slot-type checking loop. -/
def checkSlots (input : String) (slotTypesForSlots : List (Option SlotType))
    (slotValues : List String) : Option (List SlotMatch) :=
  if slotValues.any (slotBoundaryViolation input) then
    none
  else
    checkSlotsTypes (slotValues.zip slotTypesForSlots)

theorem checkSlotsTypes_eq_none_of_mem (l : List (String × Option SlotType))
    (p : String × Option SlotType) (hmem : p ∈ l)
    (hfail : (SlotMatch.fromType p.1 p.2).isMatch = false) :
    checkSlotsTypes l = none := by
  induction l with
  | nil => cases hmem
  | cons hd tl ih =>
    obtain ⟨v, t⟩ := hd
    rcases List.mem_cons.mp hmem with heq | htl
    · have hvt : (SlotMatch.fromType v t).isMatch = false := by
        rw [heq] at hfail; exact hfail
      simp only [checkSlotsTypes]
      rw [if_neg (by simp [hvt])]
    · by_cases hm : (SlotMatch.fromType v t).isMatch = true
      · simp [checkSlotsTypes, hm, ih htl]
      · simp only [checkSlotsTypes]
        rw [if_neg (by simp_all)]

theorem matchAll_mem_spec (st : SlotType) (value : String) (m : SlotMatch)
    (hm : m ∈ st.matchAll value) :
    m.isMatch = true ∧ m.value = some (jsTrim value) ∧
    ∃ sv ∈ st.values, m.enumeratedValue = some sv ∧
      (lowerStr sv.name.value = lowerStr (jsTrim value) ∨
       ∃ syn ∈ sv.name.synonyms, m.slotValueSynonym = some syn ∧
         lowerStr syn = lowerStr (jsTrim value)) := by
  simp only [SlotType.matchAll, List.mem_flatMap] at hm
  obtain ⟨sv, hsv, hmem⟩ := hm
  by_cases hcanon : lowerStr sv.name.value = lowerStr (jsTrim value)
  · rw [if_pos hcanon, List.mem_singleton] at hmem
    subst hmem
    exact ⟨rfl, rfl, sv, hsv, rfl, Or.inl hcanon⟩
  · rw [if_neg hcanon, List.mem_map] at hmem
    obtain ⟨syn, hsynmem, hsyneq⟩ := hmem
    obtain ⟨hsynlist, hsynval⟩ := List.mem_filter.mp hsynmem
    subst hsyneq
    exact ⟨rfl, rfl, sv, hsv, rfl, Or.inr ⟨syn, hsynlist, rfl, by simpa using hsynval⟩⟩

theorem matchAll_eq_nil_iff (st : SlotType) (value : String) :
    st.matchAll value = [] ↔ ∀ sv ∈ st.values,
      lowerStr sv.name.value ≠ lowerStr (jsTrim value) ∧
      ∀ syn ∈ sv.name.synonyms, lowerStr syn ≠ lowerStr (jsTrim value) := by
  simp only [SlotType.matchAll, List.flatMap_eq_nil_iff]
  constructor
  · intro h sv hsv
    have hnil := h sv hsv
    by_cases hcanon : lowerStr sv.name.value = lowerStr (jsTrim value)
    · rw [if_pos hcanon] at hnil
      cases hnil
    · rw [if_neg hcanon] at hnil
      refine ⟨hcanon, fun syn hsyn heq => ?_⟩
      rw [List.map_eq_nil_iff, List.filter_eq_nil_iff] at hnil
      exact hnil syn hsyn (by simpa using heq)
  · intro h sv hsv
    obtain ⟨hcanon, hsyns⟩ := h sv hsv
    rw [if_neg hcanon, List.map_eq_nil_iff, List.filter_eq_nil_iff]
    intro syn hsyn hval
    exact hsyns syn hsyn (by simpa using hval)

/-- C4: slot-type resolution for a captured slot value.  (1) With no
registered type the value matches and is marked untyped.  (2) A declared
regex matching the trimmed value succeeds immediately.  (3) Every `matchAll`
hit pairs the trimmed value with a slot value whose canonical form or a
synonym equals it case-insensitively, and (4) `matchAll` is empty exactly
when no canonical form or synonym matches case-insensitively; (5) when the
regex does not apply, the first `matchAll` hit is the result.  (6) With no
hit, a builtin (`AMAZON`-prefixed) type that is not fully enumerated
matches free-form, while (7) for a custom or fully-enumerated type (e.g.
`AMAZON.NUMBER`) the match fails and the whole candidate is rejected by the
slot-checking loop. -/
theorem slot_type_resolution (v : String) (st : SlotType) (r : String → Bool) :
    (SlotMatch.fromType v none = ⟨true, some v, none, none, true⟩) ∧
    (st.regex = some r → r (jsTrim v) = true →
      SlotMatch.fromType v (some st) = ⟨true, some (jsTrim v), none, none, false⟩) ∧
    (∀ m ∈ st.matchAll v, m.isMatch = true ∧ m.value = some (jsTrim v) ∧
      ∃ sv ∈ st.values, m.enumeratedValue = some sv ∧
        (lowerStr sv.name.value = lowerStr (jsTrim v) ∨
         ∃ syn ∈ sv.name.synonyms, m.slotValueSynonym = some syn ∧
           lowerStr syn = lowerStr (jsTrim v))) ∧
    (st.matchAll v = [] ↔ ∀ sv ∈ st.values,
      lowerStr sv.name.value ≠ lowerStr (jsTrim v) ∧
      ∀ syn ∈ sv.name.synonyms, lowerStr syn ≠ lowerStr (jsTrim v)) ∧
    (∀ m ms, regexMatches st (jsTrim v) = false → st.matchAll v = m :: ms →
      SlotMatch.fromType v (some st) = m) ∧
    (regexMatches st (jsTrim v) = false → st.matchAll v = [] →
      jsStartsWith st.name "AMAZON" = true → st.isEnumerated = false →
      SlotMatch.fromType v (some st) = ⟨true, some v, none, none, false⟩) ∧
    (regexMatches st (jsTrim v) = false → st.matchAll v = [] →
      (jsStartsWith st.name "AMAZON" = false ∨ st.isEnumerated = true) →
      (SlotMatch.fromType v (some st)).isMatch = false ∧
      ∀ (vals : List String) (types : List (Option SlotType)),
        (v, some st) ∈ vals.zip types → checkSlotsTypes (vals.zip types) = none) := by
  refine ⟨rfl, ?_, matchAll_mem_spec st v, matchAll_eq_nil_iff st v, ?_, ?_, ?_⟩
  · intro hreg hr
    have : regexMatches st (jsTrim v) = true := by simp [regexMatches, hreg, hr]
    simp [SlotMatch.fromType, this]
  · intro m ms hreg hcons
    simp [SlotMatch.fromType, hreg, hcons]
  · intro hreg hnil hamzn henum
    simp [SlotMatch.fromType, hreg, hnil, hamzn, henum]
  · intro hreg hnil hfail
    have hmain : (SlotMatch.fromType v (some st)).isMatch = false := by
      rcases hfail with h | h <;> simp [SlotMatch.fromType, hreg, hnil, h]
    exact ⟨hmain, fun vals types hmem =>
      checkSlotsTypes_eq_none_of_mem (vals.zip types) (v, some st) hmem hmain⟩

/-- The regex of `AMAZON.NUMBER` (`"^[0-9]*$"`): every character is a
digit. -/
def numberRegex (s : String) : Bool :=
  s.data.all Char.isDigit

/-- The long-form number values of `BuiltinSlotTypes` (`1` ↦ `one`, …,
`20` ↦ `twenty`), in the source's enumeration order. -/
def longFormSlotValues : List ISlotValue :=
  [⟨some "1", true, ⟨"1", ["one"]⟩⟩, ⟨some "2", true, ⟨"2", ["two"]⟩⟩,
   ⟨some "3", true, ⟨"3", ["three"]⟩⟩, ⟨some "4", true, ⟨"4", ["four"]⟩⟩,
   ⟨some "5", true, ⟨"5", ["five"]⟩⟩, ⟨some "6", true, ⟨"6", ["six"]⟩⟩,
   ⟨some "7", true, ⟨"7", ["seven"]⟩⟩, ⟨some "8", true, ⟨"8", ["eight"]⟩⟩,
   ⟨some "9", true, ⟨"9", ["nine"]⟩⟩, ⟨some "10", true, ⟨"10", ["ten"]⟩⟩,
   ⟨some "11", true, ⟨"11", ["eleven"]⟩⟩, ⟨some "12", true, ⟨"12", ["twelve"]⟩⟩,
   ⟨some "13", true, ⟨"13", ["thirteen"]⟩⟩, ⟨some "14", true, ⟨"14", ["fourteen"]⟩⟩,
   ⟨some "15", true, ⟨"15", ["fifteen"]⟩⟩, ⟨some "16", true, ⟨"16", ["sixteen"]⟩⟩,
   ⟨some "17", true, ⟨"17", ["seventeen"]⟩⟩, ⟨some "18", true, ⟨"18", ["eighteen"]⟩⟩,
   ⟨some "19", true, ⟨"19", ["nineteen"]⟩⟩, ⟨some "20", true, ⟨"20", ["twenty"]⟩⟩]

/-- The builtin `AMAZON.NUMBER` slot type of `BuiltinSlotTypes.values`. -/
def numberSlotType : SlotType :=
  ⟨"AMAZON.NUMBER", longFormSlotValues, some numberRegex⟩

/-- Witness for C4: `AMAZON.NUMBER` accepts `"19801"` via the digit regex;
the unextended builtin `AMAZON.Animal` accepts `"zebra"` free-form; the
custom type `COLOR` rejects `"blue"`, dropping the whole candidate. -/
theorem slot_type_resolution_witness :
    SlotMatch.fromType "19801" (some numberSlotType) =
      ⟨true, some (jsTrim "19801"), none, none, false⟩ ∧
    SlotMatch.fromType "zebra" (some ⟨"AMAZON.Animal", [], none⟩) =
      ⟨true, some "zebra", none, none, false⟩ ∧
    (SlotMatch.fromType "blue"
      (some ⟨"COLOR", [⟨some "R", false, ⟨"red", ["crimson"]⟩⟩], none⟩)).isMatch = false ∧
    checkSlotsTypes [("blue",
      some ⟨"COLOR", [⟨some "R", false, ⟨"red", ["crimson"]⟩⟩], none⟩)] = none :=
  ⟨(slot_type_resolution "19801" numberSlotType numberRegex).2.1 rfl (by decide),
   (slot_type_resolution "zebra" ⟨"AMAZON.Animal", [], none⟩ numberRegex).2.2.2.2.2.1
      rfl (by decide) (by decide) (by decide),
   ((slot_type_resolution "blue" ⟨"COLOR", [⟨some "R", false, ⟨"red", ["crimson"]⟩⟩], none⟩
      numberRegex).2.2.2.2.2.2 rfl (by decide) (Or.inl (by decide))).1,
   ((slot_type_resolution "blue" ⟨"COLOR", [⟨some "R", false, ⟨"red", ["crimson"]⟩⟩], none⟩
      numberRegex).2.2.2.2.2.2 rfl (by decide) (Or.inl (by decide))).2
      ["blue"] [some ⟨"COLOR", [⟨some "R", false, ⟨"red", ["crimson"]⟩⟩], none⟩]
      (by simp)⟩

/-- C8: a matched candidate is rejected whenever some captured slot value
is not the entire matched string, is non-blank after trimming, and has
neither a leading nor a trailing space; when instead every captured value
is the whole match, or blank, or whitespace-bounded on at least one side,
the boundary guard passes and the candidate is kept, its fate determined
solely by the slot-type checking loop. -/
theorem slot_boundary_hygiene (input : String)
    (slotTypesForSlots : List (Option SlotType)) (slotValues : List String) :
    ((∃ v ∈ slotValues, v ≠ input ∧ jsTrim v ≠ "" ∧
        jsStartsWith v " " = false ∧ jsEndsWith v " " = false) →
      checkSlots input slotTypesForSlots slotValues = none) ∧
    ((∀ v ∈ slotValues, v = input ∨ jsTrim v = "" ∨
        jsStartsWith v " " = true ∨ jsEndsWith v " " = true) →
      checkSlots input slotTypesForSlots slotValues =
        checkSlotsTypes (slotValues.zip slotTypesForSlots)) := by
  constructor
  · rintro ⟨v, hv, hne, htrim, hlead, htrail⟩
    have hviol : slotValues.any (slotBoundaryViolation input) = true := by
      refine List.any_eq_true.mpr ⟨v, hv, ?_⟩
      have h1 : (input == v) = false := beq_eq_false_iff_ne.mpr fun h => hne h.symm
      have h2 : ((jsTrim v) == "") = false := beq_eq_false_iff_ne.mpr htrim
      simp [slotBoundaryViolation, h1, h2, hlead, htrail]
    simp [checkSlots, hviol]
  · intro hall
    have hok : slotValues.any (slotBoundaryViolation input) = false := by
      rw [List.any_eq_false]
      intro v hv
      rcases hall v hv with h | h | h | h <;>
        simp [slotBoundaryViolation, h]
    simp [checkSlots, hok]

/-- Witness for C8: the sample `"slot {X}"` compiled against the utterance
`"slotfoo"` captures `"foo"` — not the whole match, non-blank, with no
whitespace boundary — and the candidate is rejected; the same phrase
against `"slot foo"` captures `" foo"` and the guard passes. -/
theorem slot_boundary_hygiene_witness :
    checkSlots "slotfoo" [none] ["foo"] = none ∧
    checkSlots "slot foo" [none] [" foo"] = checkSlotsTypes ([" foo"].zip [none]) :=
  ⟨(slot_boundary_hygiene "slotfoo" [none] ["foo"]).1
      ⟨"foo", by decide, by decide, by decide, by decide, by decide⟩,
   (slot_boundary_hygiene "slot foo" [none] [" foo"]).2
      (by
        intro v hv
        rw [List.mem_singleton] at hv
        subst hv
        right; right; left
        decide)⟩

/-! ## Entity resolution on outgoing intent requests

From `VirtualAlexa.slot` (`src/core/VirtualAlexa.ts`): the construction of
the `resolutionsPerAuthority` records attached to a slot value assigned to
an outgoing intent request. -/

/-- One `{value: {id, name}}` entry of a resolution record. -/
structure EntityResolutionValue where
  id : Option String
  name : String
deriving DecidableEq, Repr

/-- The entity-resolution status codes. -/
inductive EntityResolutionStatus where
  | ER_SUCCESS_MATCH
  | ER_SUCCESS_NO_MATCH
deriving DecidableEq, Repr

/-- One record of `resolutionsPerAuthority`. -/
structure ResolutionRecord where
  authority : String
  values : List EntityResolutionValue
  status : EntityResolutionStatus
deriving DecidableEq, Repr

/-- The local comparator `comp` of `VirtualAlexa.slot`: trimmed,
case-insensitive string equality. -/
def compTrimLower (a b : String) : Bool :=
  lowerStr (jsTrim a) == lowerStr (jsTrim b)

/-- The per-value match count of `VirtualAlexa.slot`: `1` if the canonical
name matches the slot value, else the number of matching synonyms. -/
def erCount (slotValue : String) (ev : ISlotValue) : Nat :=
  if compTrimLower ev.name.value slotValue then 1
  else (ev.name.synonyms.filter (fun syn => compTrimLower syn slotValue)).length

/-- The push-or-extend step of `VirtualAlexa.slot`: if a record for the
authority exists, append the new values to it, else push a fresh
`ER_SUCCESS_MATCH` record. -/
def pushResolution (acc : List ResolutionRecord) (authority : String)
    (vals : List EntityResolutionValue) : List ResolutionRecord :=
  match acc.find? (fun record => record.authority == authority) with
  | some _ => acc.map (fun record =>
      if record.authority == authority then
        { record with values := record.values ++ vals }
      else record)
  | none => acc ++ [⟨authority, vals, .ER_SUCCESS_MATCH⟩]

/-- The `resolutionsPerAuthority` list built by `VirtualAlexa.slot` for a
slot value: nothing for an unregistered type or a type with no non-builtin
values; otherwise, for each non-builtin value with a positive match count,
that many copies of its `{id, canonical name}` entry are pushed under the
single authority, and an `ER_SUCCESS_NO_MATCH` record with no values is
produced when nothing matched. -/
def slotResolutions (slotType : Option SlotType) (applicationID slotValue : String) :
    List ResolutionRecord :=
  match slotType with
  | none => []
  | some st =>
    let enumeratedValues := st.values.filter (fun sv => !sv.builtin)
    if enumeratedValues.isEmpty then []
    else
      let authority := "amzn1.er-authority.echo-sdk." ++ applicationID ++ "." ++ st.name
      let recs := enumeratedValues.foldl (fun acc ev =>
        if erCount slotValue ev ≠ 0 then
          pushResolution acc authority
            (List.replicate (erCount slotValue ev) ⟨ev.id, ev.name.value⟩)
        else acc) []
      if recs.isEmpty then [⟨authority, [], .ER_SUCCESS_NO_MATCH⟩] else recs

/-- The flat list of resolution entries contributed by a list of slot-type
values: one `{id, canonical name}` entry per matching canonical value or
matching synonym. -/
def erEntries (slotValue : String) (l : List ISlotValue) : List EntityResolutionValue :=
  l.flatMap (fun ev => List.replicate (erCount slotValue ev) ⟨ev.id, ev.name.value⟩)

theorem erFold_singleton (slotValue authority : String) (l : List ISlotValue)
    (vs : List EntityResolutionValue) :
    l.foldl (fun acc ev =>
        if erCount slotValue ev ≠ 0 then
          pushResolution acc authority
            (List.replicate (erCount slotValue ev) ⟨ev.id, ev.name.value⟩)
        else acc) [⟨authority, vs, .ER_SUCCESS_MATCH⟩] =
      [⟨authority, vs ++ erEntries slotValue l, .ER_SUCCESS_MATCH⟩] := by
  induction l generalizing vs with
  | nil => simp [erEntries]
  | cons ev tl ih =>
    by_cases hc : erCount slotValue ev = 0
    · simp only [List.foldl_cons, if_neg (not_ne_iff.mpr hc)]
      rw [ih]
      simp [erEntries, hc]
    · simp only [List.foldl_cons, if_pos hc]
      have hpush : pushResolution [⟨authority, vs, .ER_SUCCESS_MATCH⟩] authority
          (List.replicate (erCount slotValue ev) ⟨ev.id, ev.name.value⟩) =
          [⟨authority, vs ++ List.replicate (erCount slotValue ev) ⟨ev.id, ev.name.value⟩,
            .ER_SUCCESS_MATCH⟩] := by
        simp [pushResolution]
      rw [hpush, ih]
      simp [erEntries]

theorem erFold_nil (slotValue authority : String) (l : List ISlotValue) :
    l.foldl (fun acc ev =>
        if erCount slotValue ev ≠ 0 then
          pushResolution acc authority
            (List.replicate (erCount slotValue ev) ⟨ev.id, ev.name.value⟩)
        else acc) [] =
      if erEntries slotValue l = [] then []
      else [⟨authority, erEntries slotValue l, .ER_SUCCESS_MATCH⟩] := by
  induction l with
  | nil => simp [erEntries]
  | cons ev tl ih =>
    by_cases hc : erCount slotValue ev = 0
    · simp only [List.foldl_cons, if_neg (not_ne_iff.mpr hc)]
      rw [ih]
      simp [erEntries, hc]
    · simp only [List.foldl_cons, if_pos hc]
      have hpush : pushResolution ([] : List ResolutionRecord) authority
          (List.replicate (erCount slotValue ev) ⟨ev.id, ev.name.value⟩) =
          [⟨authority, List.replicate (erCount slotValue ev) ⟨ev.id, ev.name.value⟩,
            .ER_SUCCESS_MATCH⟩] := by
        simp [pushResolution]
      rw [hpush, erFold_singleton]
      have hne : erEntries slotValue (ev :: tl) ≠ [] := by
        simp only [erEntries, List.flatMap_cons]
        intro hnil
        rcases List.append_eq_nil.mp hnil with ⟨h1, -⟩
        exact hc (by simpa using congrArg List.length h1)
      rw [if_neg hne]
      simp [erEntries]

/-- C5: entity resolution attached to an outgoing slot value.  For a slot
type with at least one non-builtin value, exactly one
`resolutionsPerAuthority` record is produced: its values are one
`{id, canonical name}` entry per matching canonical value or matching
synonym across all non-builtin values (overlapping synonyms of several
canonical values thus yield multiple entries, all preserved), with status
`ER_SUCCESS_MATCH` when that list is non-empty and `ER_SUCCESS_NO_MATCH`
with an empty values list otherwise.  For a type with no non-builtin values
(an unextended builtin), no record is attached. -/
theorem entity_resolution_record (st : SlotType) (applicationID slotValue : String) :
    (st.values.filter (fun sv => !sv.builtin) = [] →
      slotResolutions (some st) applicationID slotValue = []) ∧
    (st.values.filter (fun sv => !sv.builtin) ≠ [] →
      slotResolutions (some st) applicationID slotValue =
        [⟨"amzn1.er-authority.echo-sdk." ++ applicationID ++ "." ++ st.name,
          erEntries slotValue (st.values.filter (fun sv => !sv.builtin)),
          if erEntries slotValue (st.values.filter (fun sv => !sv.builtin)) = []
          then .ER_SUCCESS_NO_MATCH else .ER_SUCCESS_MATCH⟩]) := by
  constructor
  · intro hnil
    simp [slotResolutions, hnil]
  · intro hne
    simp only [slotResolutions, List.isEmpty_iff, if_neg hne]
    rw [erFold_nil slotValue
      ("amzn1.er-authority.echo-sdk." ++ applicationID ++ "." ++ st.name)
      (st.values.filter (fun sv => !sv.builtin))]
    by_cases hent : erEntries slotValue (st.values.filter (fun sv => !sv.builtin)) = []
    · simp [hent]
    · simp [hent]

/-- A concrete slot type with overlapping synonyms across two distinct
canonical values, to instantiate C5. -/
def countrySlotType : SlotType :=
  ⟨"COUNTRY",
   [⟨some "US", false, ⟨"United States", ["america", "usa"]⟩⟩,
    ⟨some "NA", false, ⟨"North America", ["america"]⟩⟩],
   none⟩

/-- Witness for C5: resolving `"America"` against `countrySlotType` yields
exactly one `ER_SUCCESS_MATCH` record with one entry per matching synonym —
two entries for the two canonical values sharing the synonym. -/
theorem entity_resolution_record_witness :
    slotResolutions (some countrySlotType) "app1" "America" =
      [⟨"amzn1.er-authority.echo-sdk." ++ "app1" ++ "." ++ countrySlotType.name,
        erEntries "America" (countrySlotType.values.filter (fun sv => !sv.builtin)),
        if erEntries "America" (countrySlotType.values.filter (fun sv => !sv.builtin)) = []
        then .ER_SUCCESS_NO_MATCH else .ER_SUCCESS_MATCH⟩] ∧
    erEntries "America" (countrySlotType.values.filter (fun sv => !sv.builtin)) =
      [⟨some "US", "United States"⟩, ⟨some "NA", "North America"⟩] :=
  ⟨(entity_resolution_record countrySlotType "app1" "America").2 (by decide), by decide⟩

/-! ## Utterance match scoring and selection

From `SamplePhraseTest` (`virtualCore/SampleUtterances.ts`) and the
top-match selection loop of `InteractionModel.utterance`
(`model/InteractionModel.ts`): each accepted candidate carries the matched
substring and its slot matches; candidates are scored and the loop keeps
the best one seen so far. -/

/-- An accepted candidate of `InteractionModel.utterance`
(`SamplePhraseTest`): the matched substring (`matchArray[0]`) and the slot
matches returned by `checkSlots`, in the intent/sample enumeration
order of the surrounding loops. -/
structure SamplePhraseTest where
  matchString : String
  slotMatches : List SlotMatch
deriving DecidableEq, Repr

/-- `SamplePhraseTest.score`: the length of the matched substring minus the
total length of the captured slot-value substrings.  (Accepted slot matches
always carry a value; a missing one counts as empty.) -/
def SamplePhraseTest.score (t : SamplePhraseTest) : Int :=
  (t.matchString.length : Int) -
    (t.slotMatches.map (fun m => ((m.value.getD "").length : Int))).sum

/-- `SamplePhraseTest.scoreSlots`: the number of typed (non-free-form) slot
matches. -/
def SamplePhraseTest.scoreSlots (t : SamplePhraseTest) : Nat :=
  (t.slotMatches.filter (fun m => !m.untyped)).length

/-- The ordering key of a candidate: score first, typed-slot count second. -/
def key (t : SamplePhraseTest) : Int × Nat :=
  (t.score, t.scoreSlots)

/-- Strict lexicographic order on candidate keys, exactly the update
condition `score > topScore || topScore === score && scoreSlot >
topScoreSlot` of the selection loop. -/
def keyLt (a b : Int × Nat) : Prop :=
  a.1 < b.1 ∨ (a.1 = b.1 ∧ a.2 < b.2)

theorem keyLt_irrefl (a : Int × Nat) : ¬ keyLt a a := by
  simp [keyLt]

theorem keyLt_trans {a b c : Int × Nat} (h1 : keyLt a b) (h2 : keyLt b c) :
    keyLt a c := by
  rcases h1 with h1 | ⟨h1e, h1s⟩ <;> rcases h2 with h2 | ⟨h2e, h2s⟩ <;>
    simp only [keyLt] <;> omega

theorem not_keyLt_iff (a b : Int × Nat) : ¬ keyLt a b ↔ keyLt b a ∨ a = b := by
  obtain ⟨a1, a2⟩ := a
  obtain ⟨b1, b2⟩ := b
  simp only [keyLt, Prod.mk.injEq]
  omega

instance (a b : Int × Nat) : Decidable (keyLt a b) := by
  unfold keyLt
  infer_instance

/-- The selection loop of `InteractionModel.utterance`: the running state
is `topMatch` / `topScore` / `topScoreSlot` (initially `undefined`, `0`,
`0`), updated whenever there is no top match yet or the candidate's key is
strictly greater lexicographically. -/
def utteranceTop :
    Option SamplePhraseTest → Int → Nat → List SamplePhraseTest →
      Option SamplePhraseTest
  | topMatch, _, _, [] => topMatch
  | topMatch, topScore, topScoreSlot, c :: rest =>
    if topMatch = none ∨ topScore < c.score ∨
        (topScore = c.score ∧ topScoreSlot < c.scoreSlots) then
      utteranceTop (some c) c.score c.scoreSlots rest
    else
      utteranceTop topMatch topScore topScoreSlot rest

/-- `InteractionModel.utterance` restricted to its selection step: run the
loop over the accepted candidates in enumeration order. -/
def utteranceSelect (cs : List SamplePhraseTest) : Option SamplePhraseTest :=
  utteranceTop none 0 0 cs

theorem utteranceTop_cons (t c : SamplePhraseTest) (rest : List SamplePhraseTest) :
    utteranceTop (some t) t.score t.scoreSlots (c :: rest) =
      if keyLt (key t) (key c) then utteranceTop (some c) c.score c.scoreSlots rest
      else utteranceTop (some t) t.score t.scoreSlots rest := by
  simp only [utteranceTop]
  have hiff : (some t = none ∨ t.score < c.score ∨
      (t.score = c.score ∧ t.scoreSlots < c.scoreSlots)) ↔ keyLt (key t) (key c) := by
    simp [keyLt, key]
  rw [if_congr hiff rfl rfl]

theorem utteranceSelect_cons (c : SamplePhraseTest) (rest : List SamplePhraseTest) :
    utteranceSelect (c :: rest) = utteranceTop (some c) c.score c.scoreSlots rest := by
  simp [utteranceSelect, utteranceTop]

theorem utteranceTop_spec (cs : List SamplePhraseTest) :
    ∀ t : SamplePhraseTest,
    ∃ r, utteranceTop (some t) t.score t.scoreSlots cs = some r ∧
      (∀ d ∈ t :: cs, ¬ keyLt (key r) (key d)) ∧
      ∃ l₁ l₂, t :: cs = l₁ ++ r :: l₂ ∧ ∀ d ∈ l₁, keyLt (key d) (key r) := by
  induction cs with
  | nil =>
    intro t
    refine ⟨t, rfl, ?_, [], [], rfl, by simp⟩
    intro d hd
    rw [List.mem_singleton] at hd
    subst hd
    exact keyLt_irrefl (key d)
  | cons c rest ih =>
    intro t
    rw [utteranceTop_cons]
    by_cases hlt : keyLt (key t) (key c)
    · rw [if_pos hlt]
      obtain ⟨r, hr, hmax, l₁, l₂, hdecomp, hstrict⟩ := ih c
      have hc_le_r : ¬ keyLt (key r) (key c) := hmax c (by simp)
      have ht_lt_r : keyLt (key t) (key r) := by
        rcases (not_keyLt_iff _ _).mp hc_le_r with hcr | hcr
        · exact keyLt_trans hlt hcr
        · rwa [← hcr] at hlt
      refine ⟨r, hr, ?_, t :: l₁, l₂, by simp [hdecomp], ?_⟩
      · intro d hd
        rcases List.mem_cons.mp hd with hdt | hdc
        · subst hdt
          intro habs
          exact hc_le_r (keyLt_trans habs hlt)
        · exact hmax d hdc
      · intro d hd
        rcases List.mem_cons.mp hd with hdt | hdl
        · subst hdt; exact ht_lt_r
        · exact hstrict d hdl
    · rw [if_neg hlt]
      obtain ⟨r, hr, hmax, l₁, l₂, hdecomp, hstrict⟩ := ih t
      have ht_le_r : ¬ keyLt (key r) (key t) := hmax t (by simp)
      have hc_le_r : ¬ keyLt (key r) (key c) := by
        intro habs
        rcases (not_keyLt_iff _ _).mp hlt with hct | hct
        · exact ht_le_r (keyLt_trans habs hct)
        · rw [hct] at ht_le_r
          exact ht_le_r habs
      refine ⟨r, hr, ?_, ?_⟩
      · intro d hd
        rcases List.mem_cons.mp hd with hdt | hd'
        · subst hdt; exact ht_le_r
        · rcases List.mem_cons.mp hd' with hdc | hdrest
          · subst hdc; exact hc_le_r
          · exact hmax d (by simp [hdrest])
      · rcases l₁ with _ | ⟨x, l₁'⟩
        · obtain ⟨hx, hrest⟩ : t = r ∧ rest = l₂ := by
            simpa using hdecomp
          refine ⟨[], c :: rest, ?_, by simp⟩
          rw [← hx]
          rfl
        · obtain ⟨hx, hrest⟩ : x = t ∧ rest = l₁' ++ r :: l₂ := by
            have := hdecomp
            simp only [List.cons_append, List.cons.injEq] at this
            exact ⟨this.1.symm, this.2⟩
          subst hx
          have hx_lt_r : keyLt (key x) (key r) := hstrict x (by simp)
          have hc_lt_r : keyLt (key c) (key r) := by
            rcases (not_keyLt_iff _ _).mp hlt with hct | hct
            · exact keyLt_trans hct hx_lt_r
            · rwa [hct] at hx_lt_r
          refine ⟨x :: c :: l₁', l₂, by simp [hrest], ?_⟩
          intro d hd
          rcases List.mem_cons.mp hd with hdt | hd'
          · subst hdt; exact hx_lt_r
          · rcases List.mem_cons.mp hd' with hdc | hdl
            · subst hdc; exact hc_lt_r
            · exact hstrict d (by simp [hdl])

/-- C1: for a non-empty list of accepted candidates (in the fixed
intent/sample enumeration order), the selection loop of
`InteractionModel.utterance` returns a candidate whose score — length of
the matched substring minus the sum of the captured slot-value lengths —
is maximal; among candidates of equal score one with strictly more typed
(non-free-form) slot matches is preferred; and every candidate enumerated
before the winner is strictly worse on this two-part key, so the first
candidate wins a full tie. -/
theorem utterance_top_match (cs : List SamplePhraseTest) (hne : cs ≠ []) :
    ∃ r, utteranceSelect cs = some r ∧
      (∀ d ∈ cs, d.score ≤ r.score) ∧
      (∀ d ∈ cs, d.score = r.score → d.scoreSlots ≤ r.scoreSlots) ∧
      ∃ l₁ l₂, cs = l₁ ++ r :: l₂ ∧
        ∀ d ∈ l₁, d.score < r.score ∨
          (d.score = r.score ∧ d.scoreSlots < r.scoreSlots) := by
  rcases cs with _ | ⟨c, rest⟩
  · exact absurd rfl hne
  · obtain ⟨r, hr, hmax, l₁, l₂, hdecomp, hstrict⟩ := utteranceTop_spec rest c
    rw [← utteranceSelect_cons] at hr
    refine ⟨r, hr, ?_, ?_, l₁, l₂, hdecomp, ?_⟩
    · intro d hd
      have h := (not_keyLt_iff _ _).mp (hmax d hd)
      rcases h with h | h
      · rcases h with h | ⟨h, -⟩
        · exact le_of_lt h
        · exact le_of_eq h
      · exact le_of_eq (congrArg Prod.fst h).symm
    · intro d hd hscore
      have h := hmax d hd
      simp only [keyLt, key, not_or, not_and] at h
      omega
    · intro d hd
      exact hstrict d hd

/-- Witness for C1: two candidates over the same matched string; the first
captures an untyped slot (score 4), the second captures none (score 9), so
the second wins on score. -/
theorem utterance_top_match_witness :
    ∃ r, utteranceSelect
        [⟨"play song", [⟨true, some " song", none, none, true⟩]⟩,
         ⟨"play song", []⟩] = some r ∧
      (∀ d ∈ [⟨"play song", [⟨true, some " song", none, none, true⟩]⟩,
              (⟨"play song", []⟩ : SamplePhraseTest)], d.score ≤ r.score) ∧
      (∀ d ∈ [⟨"play song", [⟨true, some " song", none, none, true⟩]⟩,
              (⟨"play song", []⟩ : SamplePhraseTest)],
        d.score = r.score → d.scoreSlots ≤ r.scoreSlots) ∧
      ∃ l₁ l₂,
        [⟨"play song", [⟨true, some " song", none, none, true⟩]⟩,
         (⟨"play song", []⟩ : SamplePhraseTest)] = l₁ ++ r :: l₂ ∧
        ∀ d ∈ l₁, d.score < r.score ∨
          (d.score = r.score ∧ d.scoreSlots < r.scoreSlots) :=
  utterance_top_match
    [⟨"play song", [⟨true, some " song", none, none, true⟩]⟩, ⟨"play song", []⟩]
    (by decide)

/-! ## Punctuation handling in utterance matching

From `InteractionModel.utterance` / `matchesUtterances`: the candidate
utterance is stripped of a fixed punctuation set
(`utterance.replace(/[!"¿?|#$%\/()=+\-_<>*{}·¡\[\].,;:]/g, "")`) and then
tested against the anchored case-insensitive regex built from the sample
phrase.  The sample phrase itself is *not* stripped, and its characters are
used verbatim as regex source text, so regex metacharacters occurring in a
phrase act as regex syntax (e.g. the phrase `"really?"` compiles to
`/^really?$/i`, which accepts the cleaned utterance `"really"`).  The
embedding below therefore covers only the fragment where the regex test is
literal matching: sample phrases with no slot placeholders all of whose
characters are regex-literal (`regexLiteralChar`), for which the test
`^phrase$` with the `i` flag is case-insensitive string equality. -/

/-- The fixed punctuation set removed from the candidate utterance. -/
def punctuationChars : List Char :=
  ['!', '"', '¿', '?', '|', '#', '$', '%', '/', '(', ')', '=', '+', '-', '_',
   '<', '>', '*', '\x7b', '\x7d', '·', '¡', '[', ']', '.', ',', ';', ':']

/-- `utterance.replace(/[…]/g, "")`: remove every punctuation character
from the utterance. -/
def cleanUtterance (u : String) : String :=
  ⟨u.data.filter (fun c => !(punctuationChars.contains c))⟩

/-- Characters the JavaScript regex engine treats as literal text when they
appear in the pattern source: everything except the metacharacters
`\ ^ $ . * + ? ( ) [ ] { } |`. -/
def regexLiteralChar (c : Char) : Bool :=
  !(['\\', '^', '$', '.', '*', '+', '?', '(', ')', '[', ']',
     '\x7b', '\x7d', '|'].contains c)

/-- The test of one sample phrase against one utterance, for a sample
phrase that is pure literal text — no slot placeholders and every character
regex-literal in the sense of `regexLiteralChar`; on phrases containing
regex metacharacters the real test is full regex matching and this equality
does not model it.  On the literal fragment, the anchored case-insensitive
regex match of the *cleaned* utterance against the *unmodified* phrase is
case-insensitive string equality between them. -/
def matchesSample (template utterance : String) : Bool :=
  lowerStr (cleanUtterance utterance) == lowerStr template

/-- C6 counterexample: the template `"hi, you"` and the utterance
`"hi, you"` differ only by punctuation (they are identical), yet matching
fails, because only the utterance — not the template-derived pattern — is
stripped of punctuation. -/
theorem punctuation_template_not_stripped :
    matchesSample "hi, you" "hi, you" = false := by
  decide

theorem punctuationChars_toLower (c : Char) (h : c ∈ punctuationChars) :
    Char.toLower c = c := by
  fin_cases h <;> decide

theorem punctuationChars_not_mem_lower (n : Nat) (h1 : 65 ≤ n) (h2 : n ≤ 90) :
    punctuationChars.contains (Char.ofNat (n + 32)) = false := by
  interval_cases n <;> decide

theorem punctuationChars_contains_toLower (c : Char)
    (h : punctuationChars.contains (Char.toLower c) = true) :
    punctuationChars.contains c = true := by
  by_cases hrange : c.toNat ≥ 65 ∧ c.toNat ≤ 90
  · have hlow : Char.toLower c = Char.ofNat (c.toNat + 32) := by
      simp [Char.toLower, hrange]
    rw [hlow] at h
    rw [punctuationChars_not_mem_lower c.toNat hrange.1 hrange.2] at h
    cases h
  · have hlow : Char.toLower c = c := by
      simp [Char.toLower]
      intro h1 h2
      exact absurd ⟨h1, h2⟩ hrange
    rwa [hlow] at h

/-- C6 amended: only the candidate utterance is stripped of the fixed
punctuation set before matching; the template-derived pattern is not.
For a template all of whose characters the regex engine treats literally
(`regexLiteralChar` — templates containing regex-metacharacter punctuation
such as `?` or `.` are instead interpreted as regex syntax and are outside
this statement): (a) if the template contains no punctuation-set character,
matching succeeds exactly when the punctuation-stripped utterance equals
the template up to case — so punctuation on the utterance side never
blocks a match — while (b) if the template contains a (necessarily
literal) character of the punctuation set, such as a comma, it matches no
utterance at all. -/
theorem punctuation_stripping_amended (t u : String) :
    ((∀ c ∈ t.data, regexLiteralChar c = true) →
      (∀ c ∈ t.data, punctuationChars.contains c = false) →
      (matchesSample t u = true ↔ lowerStr (cleanUtterance u) = lowerStr t)) ∧
    ((∀ c ∈ t.data, regexLiteralChar c = true) →
      (∃ c ∈ t.data, punctuationChars.contains c = true) →
      matchesSample t u = false) := by
  constructor
  · intro _ _
    simp [matchesSample]
  · intro _
    rintro ⟨c, hc, hpunct⟩
    by_contra hmatch
    rw [Bool.not_eq_false, matchesSample, beq_iff_eq] at hmatch
    have hmemt : Char.toLower c ∈ (lowerStr t).data :=
      List.mem_map_of_mem Char.toLower hc
    rw [punctuationChars_toLower c (by simpa using hpunct)] at hmemt
    rw [← hmatch] at hmemt
    obtain ⟨c', hc'mem, hc'low⟩ := List.mem_map.mp hmemt
    have hc'filter : punctuationChars.contains c' = false := by
      have := List.of_mem_filter hc'mem
      simpa using this
    have : punctuationChars.contains c' = true :=
      punctuationChars_contains_toLower c' (by rwa [hc'low])
    rw [hc'filter] at this
    cases this

/-- Witness for C6's amended statement: `"hi you"` (regex-literal and
punctuation-free) matches the utterance `"Hi, you?"` after stripping;
`"hi, you"` (regex-literal, containing a comma) matches nothing, not even
itself. -/
theorem punctuation_stripping_amended_witness :
    matchesSample "hi you" "Hi, you?" = true ∧
    matchesSample "hi, you" "hi, you" = false :=
  ⟨((punctuation_stripping_amended "hi you" "Hi, you?").1 (by decide) (by decide)).mpr
      (by decide),
   (punctuation_stripping_amended "hi, you" "hi, you").2 (by decide)
      ⟨',', by decide, by decide⟩⟩

/-! ## `utter` entry-point dispatch

From `VirtualAlexa.utter` (`src/core/VirtualAlexa.ts`): the exact string
`"exit"` sends a `SessionEndedRequest` with reason `USER_INITIATED`; an
input containing one of the invocation keywords is treated as a skill
invocation — if it matches `^(?:ask|open|launch|talk to|tell) .* to (.*)`
(case-insensitively) the greedy capture (the tail after the last `" to "`)
is what reaches the utterance matcher, otherwise a `LaunchRequest` is sent;
any other input goes to the utterance matcher unchanged.  The embedding
treats `.` as matching any character (harness inputs are single-line
utterances). -/

/-- `SessionEndedReason` from `VirtualAlexa.ts`. -/
inductive SessionEndedReason where
  | ERROR
  | EXCEEDED_MAX_REPROMPTS
  | USER_INITIATED
deriving DecidableEq, Repr

/-- The observable dispatch of `VirtualAlexa.utter`: end the session, send
a launch request, or run the utterance matcher on the resolved text. -/
inductive UtterAction where
  | sessionEnded (reason : SessionEndedReason)
  | launchRequest
  | matchUtterance (resolved : String)
deriving DecidableEq, Repr

/-- The alternation of the invocation regexes, in source order. -/
def invocationKeywords : List String :=
  ["ask", "open", "launch", "talk to", "tell"]

/-- Substring search on character lists. -/
def containsSub (pat : List Char) : List Char → Bool
  | [] => pat.isEmpty
  | c :: cs => pat.isPrefixOf (c :: cs) || containsSub pat cs

/-- The test `/(ask|open|launch|talk to|tell).*/i.test(utterance)`:
the utterance contains one of the keywords anywhere, case-insensitively. -/
def containsKeyword (u : String) : Bool :=
  invocationKeywords.any (fun k => containsSub k.data (lowerStr u).data)

/-- The four characters of the literal `" to "` of the invocation regex. -/
def toPattern : List Char :=
  [' ', 't', 'o', ' ']

/-- Whether the list starts with `" to "`, case-insensitively (`i` flag). -/
def startsWithTo (l : List Char) : Bool :=
  (l.take 4).map Char.toLower == toPattern

/-- The greedy capture `.* to (.*)`: the suffix after the *last*
case-insensitive occurrence of `" to "`, if any. -/
def lastTailAfterTo : List Char → Option (List Char)
  | [] => none
  | c :: cs =>
    match lastTailAfterTo cs with
    | some tail => some tail
    | none => if startsWithTo (c :: cs) then some (cs.drop 3) else none

/-- Whether a case-insensitive occurrence of `" to "` starts anywhere in
the list. -/
def hasTo : List Char → Bool
  | [] => false
  | c :: cs => startsWithTo (c :: cs) || hasTo cs

/-- `/^(?:ask|open|launch|talk to|tell) .* to (.*)/i.exec(utterance)`:
a keyword at the start (they are mutually exclusive there), a space, then
the greedy capture after the last `" to "` of the remainder, returned with
its original casing. -/
def execInvocation (u : String) : Option String :=
  match invocationKeywords.find? (fun k => jsStartsWith (lowerStr u) (k ++ " ")) with
  | some k => (lastTailAfterTo (u.data.drop (k.length + 1))).map (fun tail => (⟨tail⟩ : String))
  | none => none

/-- `VirtualAlexa.utter`, up to the point where the resolved utterance is
handed to the utterance matcher. -/
def utterDispatch (u : String) : UtterAction :=
  if u = "exit" then
    .sessionEnded .USER_INITIATED
  else if containsKeyword u then
    match execInvocation u with
    | none => .launchRequest
    | some tail => .matchUtterance tail
  else
    .matchUtterance u

theorem containsSub_of_isPrefixOf (pat l : List Char) (h : pat.isPrefixOf l = true) :
    containsSub pat l = true := by
  cases l with
  | nil =>
    cases pat with
    | nil => rfl
    | cons p ps => simp at h
  | cons c cs => simp [containsSub, h]

theorem lastTailAfterTo_eq_none (l : List Char) (h : hasTo l = false) :
    lastTailAfterTo l = none := by
  induction l with
  | nil => rfl
  | cons c cs ih =>
    simp only [hasTo, Bool.or_eq_false_iff] at h
    simp only [lastTailAfterTo, ih h.2]
    rw [if_neg (by simp [h.1])]

theorem lastTailAfterTo_cons (c : Char) (cs : List Char) :
    lastTailAfterTo (c :: cs) =
      match lastTailAfterTo cs with
      | some tail => some tail
      | none => if startsWithTo (c :: cs) then some (cs.drop 3) else none :=
  rfl

theorem lastTailAfterTo_append (l₁ l₂ : List Char)
    (h : hasTo ('t' :: 'o' :: ' ' :: l₂) = false) :
    lastTailAfterTo (l₁ ++ toPattern ++ l₂) = some l₂ := by
  induction l₁ with
  | nil =>
    have hnone : lastTailAfterTo ('t' :: 'o' :: ' ' :: l₂) = none :=
      lastTailAfterTo_eq_none _ h
    have hstep : ([] : List Char) ++ toPattern ++ l₂ =
        ' ' :: ('t' :: 'o' :: ' ' :: l₂) := rfl
    rw [hstep, lastTailAfterTo_cons, hnone]
    have hsw : startsWithTo (' ' :: 't' :: 'o' :: ' ' :: l₂) = true := by
      simp only [startsWithTo]
      rw [show List.take 4 (' ' :: 't' :: 'o' :: ' ' :: l₂) = [' ', 't', 'o', ' '] from rfl]
      decide
    rw [if_pos hsw]
    rfl
  | cons c l₁' ih =>
    have hstep : (c :: l₁') ++ toPattern ++ l₂ = c :: (l₁' ++ toPattern ++ l₂) := by
      simp
    rw [hstep, lastTailAfterTo_cons, ih]

/-- C10: `utter` does not always run utterance matching.  (1) The exact
input `"exit"` ends the session with reason `USER_INITIATED`.  (2) An
input beginning (case-insensitively) with one of
`ask`/`open`/`launch`/`tell`/`talk to` on which the invocation regex finds
no `keyword .* to tail` decomposition sends a `LaunchRequest`.  (3) When
the invocation regex does match — the input is `keyword ++ " " ++ mid ++
" to " ++ tail` with no later `" to "` — only the tail after the last
`" to "` reaches the utterance matcher. -/
theorem utter_dispatch_spec (u : String) :
    (utterDispatch "exit" = .sessionEnded .USER_INITIATED) ∧
    ((∃ k ∈ invocationKeywords, jsStartsWith (lowerStr u) k = true) →
      execInvocation u = none → utterDispatch u = .launchRequest) ∧
    (∀ k mid tail,
      invocationKeywords.find? (fun k' => jsStartsWith (lowerStr u) (k' ++ " ")) = some k →
      u = k ++ " " ++ mid ++ " to " ++ tail →
      hasTo ('t' :: 'o' :: ' ' :: tail.data) = false →
      utterDispatch u = .matchUtterance tail) := by
  refine ⟨by decide, ?_, ?_⟩
  · rintro ⟨k, hkmem, hkpre⟩ hexec
    have hne : u ≠ "exit" := by
      intro he
      subst he
      fin_cases hkmem <;> revert hkpre <;> decide
    have hcontains : containsKeyword u = true := by
      refine List.any_eq_true.mpr ⟨k, hkmem, ?_⟩
      rw [jsStartsWith] at hkpre
      exact containsSub_of_isPrefixOf _ _ hkpre
    simp [utterDispatch, hne, hcontains, hexec]
  · intro k mid tail hfind hu hlast
    have hkpre : jsStartsWith (lowerStr u) (k ++ " ") = true := by
      have := List.find?_some hfind
      simpa using this
    have hkmem : k ∈ invocationKeywords := List.mem_of_find?_eq_some hfind
    have hne : u ≠ "exit" := by
      intro he
      subst he
      fin_cases hkmem <;> revert hkpre <;> decide
    have hcontains : containsKeyword u = true := by
      refine List.any_eq_true.mpr ⟨k, hkmem, ?_⟩
      refine containsSub_of_isPrefixOf _ _ ?_
      rw [jsStartsWith] at hkpre
      rw [ List.isPrefixOf_iff_prefix] at hkpre ⊢
      exact List.IsPrefix.trans
        (show k.data <+: k.data ++ " ".data from ⟨" ".data, rfl⟩)
        (by simpa [String.data_append] using hkpre)
    have hexec : execInvocation u = some tail := by
      simp only [execInvocation, hfind]
      have hdata : u.data.drop (k.length + 1) = mid.data ++ toPattern ++ tail.data := by
        have hudata : u.data = (k.data ++ [' ']) ++ (mid.data ++ toPattern ++ tail.data) := by
          subst hu
          simp only [String.data_append]
          have : (" to " : String).data = toPattern := by decide
          rw [← this]
          simp [String.data_append]
        rw [hudata, List.drop_left' (by simp)]
      rw [hdata, lastTailAfterTo_append _ _ hlast]
      rfl
    simp [utterDispatch, hne, hcontains, hexec]

/-- Witness for C10: `"ask player to play the song"` resolves to
`"play the song"`; `"open my skill"` (keyword but no `" to "` part) sends a
launch request. -/
theorem utter_dispatch_spec_witness :
    utterDispatch "exit" = .sessionEnded .USER_INITIATED ∧
    utterDispatch "open my skill" = .launchRequest ∧
    utterDispatch "ask player to play the song" = .matchUtterance "play the song" :=
  ⟨(utter_dispatch_spec "exit").1,
   (utter_dispatch_spec "open my skill").2.1 ⟨"open", by decide, by decide⟩ (by decide),
   (utter_dispatch_spec "ask player to play the song").2.2 "ask" "player" "play the song"
     (by decide) (by decide) (by decide)⟩

end VirtualAlexa
